import Mathlib

/-!
Shallow embedding of the cw1155 multi-asset token ledger
(packages/cw1155/src/execute.rs, event.rs, error.rs) and proofs about its
balance/approval/supply behaviour.

Machine integers (`Uint128`) are modelled as `Nat` with explicit
overflow/underflow checks against `2^128 - 1`.  The abstract keyed store
(cw-storage-plus `Map`/`Item`) is modelled as association lists with
first-match lookup; `save` replaces, `remove` deletes.  The Rust
`TMetadataExtension` type parameter is an opaque payload, monomorphised to
`Nat` here (nothing in the code inspects it).
-/

namespace CW1155

/-- Addresses are opaque validated strings (`cosmwasm_std::Addr`). -/
abbrev Addr := String

/-- Token identifiers (`token_id : String`). -/
abbrev TokenId := String

/-- `Uint128::MAX = 2^128 - 1`. -/
def UMAX : Nat := 2 ^ 128 - 1

/-- `Uint128::checked_add`: fails on overflow past `UMAX`. -/
def checkedAdd (a b : Nat) : Option Nat :=
  if a + b ≤ UMAX then some (a + b) else none

/-- `Uint128::checked_sub`: fails on underflow. -/
def checkedSub (a b : Nat) : Option Nat :=
  if b ≤ a then some (a - b) else none

/-- Chain position (`cosmwasm_std::BlockInfo`): height and timestamp. -/
structure BlockInfo where
  height : Nat
  time : Nat
deriving DecidableEq, Repr

/-- `cosmwasm_std::Env`, reduced to the block info the contract reads. -/
structure Env where
  block : BlockInfo
deriving DecidableEq, Repr

/-- `cosmwasm_std::MessageInfo`, reduced to the sender address. -/
structure MessageInfo where
  sender : Addr
deriving DecidableEq, Repr

/-- `cw_utils::Expiration`: never, at a block height, or at a timestamp. -/
inductive Expiration where
  | never : Expiration
  | atHeight (h : Nat) : Expiration
  | atTime (t : Nat) : Expiration
deriving DecidableEq, Repr

/-- `Expiration::is_expired(&block)`: `AtHeight h` is expired once
`block.height >= h`, `AtTime t` once `block.time >= t`, `Never` never. -/
def Expiration.isExpired (e : Expiration) (block : BlockInfo) : Bool :=
  match e with
  | .never => false
  | .atHeight h => h ≤ block.height
  | .atTime t => t ≤ block.time

/-- A `(token_id, amount)` line item (`msg::TokenAmount`). -/
structure TokenAmount where
  token_id : TokenId
  amount : Nat
deriving DecidableEq, Repr

/-- Modelled from the spec: `TokenApproval` (msg.rs, not in src/): a
per-token allowance `(amount, expiration)`; its `Default` is a zero-amount,
never-expiring approval. -/
structure TokenApproval where
  amount : Nat
  expiration : Expiration
deriving DecidableEq, Repr

/-- Modelled from the spec: `TokenApproval::is_expired` (msg.rs, not in
src/): an approval is expired exactly when its expiration field is expired
against the current block. -/
def TokenApproval.isExpired (ap : TokenApproval) (env : Env) : Bool :=
  ap.expiration.isExpired env.block

/-- The zero-amount default approval (`TokenApproval::default()`). -/
def TokenApproval.zero : TokenApproval := ⟨0, .never⟩

/-- Token metadata (`state::TokenInfo`): uri plus opaque extension. -/
structure TokenInfo where
  token_uri : Option String
  extension : Nat
deriving DecidableEq, Repr

/-- Contract error type (`error::Cw1155ContractError`), with arithmetic
errors collapsed to one constructor and Rust panics modelled as a dedicated
constructor so the embedding stays total. -/
inductive ContractError where
  | stdNotFound (what : String) : ContractError
  | overflow : ContractError
  | unauthorized (reason : String) : ContractError
  | expired : ContractError
  | invalidZeroAmount : ContractError
  | notEnoughTokens (available requested : Nat) : ContractError
  | notOwner : ContractError
  | panicked (msg : String) : ContractError
deriving DecidableEq, Repr

/-! ## Abstract keyed store as association lists -/

section MapOps

variable {K V : Type} [DecidableEq K]

/-- First-match lookup in an association list (`Map::may_load`). -/
def mlookup : List (K × V) → K → Option V
  | [], _ => none
  | (k', v) :: rest, k => if k = k' then some v else mlookup rest k

/-- Remove every binding of a key (`Map::remove`). -/
def merase : List (K × V) → K → List (K × V)
  | [], _ => []
  | (k', v) :: rest, k =>
    if k' = k then merase rest k else (k', v) :: merase rest k

/-- Overwrite the binding of a key (`Map::save`). -/
def mset (m : List (K × V)) (k : K) (v : V) : List (K × V) :=
  (k, v) :: merase m k

/-- Lookup with a default value. -/
def mgetD (m : List (K × V)) (k : K) (d : V) : V :=
  (mlookup m k).getD d

/-- The keys of an association list. -/
def mkeys (m : List (K × V)) : List K := m.map Prod.fst

end MapOps

/-! ## Contract state (`state::Cw1155Config`) -/

/-- Balance ledger: `(owner, token_id) → amount`. -/
abbrev BalMap := List ((Addr × TokenId) × Nat)

/-- Per-token supply map: `token_id → amount`. -/
abbrev SupMap := List (TokenId × Nat)

/-- Per-token approvals: `(token_id, owner, operator) → TokenApproval`. -/
abbrev TapMap := List ((TokenId × Addr × Addr) × TokenApproval)

/-- Blanket operator approvals: `(owner, operator) → Expiration`. -/
abbrev OpMap := List ((Addr × Addr) × Expiration)

/-- Token metadata registry: `token_id → TokenInfo`. -/
abbrev TokMap := List (TokenId × TokenInfo)

/-- The durable contract state: the cw-ownable owner (minter) plus the
`Cw1155Config` maps (balances, per-token supply, per-token approvals,
blanket approvals, token registry) and instantiate-time collection data. -/
structure ContractState where
  owner : Addr
  balances : BalMap
  supply : SupMap
  tokenApproves : TapMap
  approves : OpMap
  tokens : TokMap
  collectionName : String
  collectionSymbol : String
  defaultBaseUri : Option String
deriving DecidableEq, Repr

/-- Attributes are string key/value pairs (`cosmwasm_std::Attribute`). -/
abbrev Attr := String × String

/-- Result of one contract call: an error, or the new state together with
the response's attribute list. -/
abbrev CallResult := Except ContractError (ContractState × List Attr)

/-- `cw_ownable::assert_owner`: fails unless the sender is the stored
owner (Ownership Guard external collaborator). -/
def assert_owner (s : ContractState) (sender : Addr) : Except ContractError Unit :=
  if sender = s.owner then .ok () else .error .notOwner

/-- Modelled from the spec: `Cw1155Config::verify_all_approval` (state.rs,
not in src/): true iff a blanket OperatorApproval for `(owner, operator)`
exists and is not expired. -/
def verify_all_approval (env : Env) (approves : OpMap) (owner operator : Addr) : Bool :=
  match mlookup approves (owner, operator) with
  | some ex => !ex.isExpired env.block
  | none => false

/-- Modelled from the spec: `Cw1155Config::increment_tokens` (state.rs, not
in src/): the Supply Counter for `token_id` is incremented by exactly the
minted amount, checked for overflow. -/
def increment_tokens (sup : SupMap) (id : TokenId) (amount : Nat) :
    Except ContractError SupMap :=
  match checkedAdd (mgetD sup id 0) amount with
  | some v => .ok (mset sup id v)
  | none => .error .overflow

/-- Modelled from the spec: `Cw1155Config::decrement_tokens` (state.rs, not
in src/): the Supply Counter for `token_id` is decremented by exactly the
burned amount, checked for underflow. -/
def decrement_tokens (sup : SupMap) (id : TokenId) (amount : Nat) :
    Except ContractError SupMap :=
  match checkedSub (mgetD sup id 0) amount with
  | some v => .ok (mset sup id v)
  | none => .error .overflow

/-! ## Events (event.rs) -/

/-- `event_action`: `"<verb>_single"` when exactly one token is affected,
otherwise `"<verb>_batch"`. -/
def event_action (action : String) (tokens : List TokenAmount) : Attr :=
  ("action", action ++ "_" ++ (if tokens.length = 1 then "single" else "batch"))

/-- `token_attributes`: comma-joined token-id and amount lists, with
singular/plural keys chosen by token count. -/
def token_attributes (tokens : List TokenAmount) : List Attr :=
  [ ((if tokens.length = 1 then "token_id" else "token_ids"),
      String.intercalate "," (tokens.map (fun t => t.token_id))),
    ((if tokens.length = 1 then "amount" else "amounts"),
      String.intercalate "," (tokens.map (fun t => toString t.amount))) ]

/-- `TransferEvent` attribute list. -/
def transferEventAttrs (info : MessageInfo) (fromAddr toAddr : Addr)
    (tokens : List TokenAmount) : List Attr :=
  [ event_action "transfer" tokens,
    ("owner", fromAddr),
    ("sender", info.sender),
    ("recipient", toAddr) ] ++ token_attributes tokens

/-- `MintEvent` attribute list. -/
def mintEventAttrs (info : MessageInfo) (toAddr : Addr)
    (tokens : List TokenAmount) : List Attr :=
  [ event_action "mint" tokens,
    ("sender", info.sender),
    ("recipient", toAddr) ] ++ token_attributes tokens

/-- `BurnEvent` attribute list. -/
def burnEventAttrs (info : MessageInfo) (fromAddr : Addr)
    (tokens : List TokenAmount) : List Attr :=
  [ event_action "burn" tokens,
    ("owner", fromAddr),
    ("sender", info.sender) ] ++ token_attributes tokens

/-- `ApproveEvent` attribute list. -/
def approveEventAttrs (sender operator : Addr) (id : TokenId) (amount : Nat) : List Attr :=
  [ ("action", "approve_single"),
    ("sender", sender),
    ("operator", operator),
    ("token_id", id),
    ("amount", toString amount) ]

/-- `RevokeEvent` attribute list. -/
def revokeEventAttrs (sender operator : Addr) (id : TokenId) (amount : Nat) : List Attr :=
  [ ("action", "revoke_single"),
    ("sender", sender),
    ("operator", operator),
    ("token_id", id),
    ("amount", toString amount) ]

/-- `ApproveAllEvent` attribute list. -/
def approveAllEventAttrs (sender operator : Addr) : List Attr :=
  [ ("action", "approve_all"), ("sender", sender), ("operator", operator) ]

/-- `RevokeAllEvent` attribute list. -/
def revokeAllEventAttrs (sender operator : Addr) : List Attr :=
  [ ("action", "revoke_all"), ("sender", sender), ("operator", operator) ]

/-! ## Transfer Engine (`update_balances`, execute.rs lines 621-740) -/

/-- First loop of `update_balances` (from-side): for each line item reject
zero amount, then `balances.update` with `balance.unwrap()` (a Rust panic
on an absent entry, modelled as `panicked`) and a checked subtraction. -/
def subFromLoop (bals : BalMap) (fromAddr : Addr) :
    List TokenAmount → Except ContractError BalMap
  | [] => .ok bals
  | t :: rest =>
    if t.amount = 0 then .error .invalidZeroAmount
    else
      match mlookup bals (fromAddr, t.token_id) with
      | none => .error (.panicked "called Option::unwrap on a None value")
      | some b =>
        match checkedSub b t.amount with
        | none => .error .overflow
        | some v => subFromLoop (mset bals (fromAddr, t.token_id) v) fromAddr rest

/-- Second loop of `update_balances` (to-side): for each line item reject
zero amount, then a checked addition onto the (possibly absent, treated as
zero) recipient balance. -/
def addToLoop (bals : BalMap) (toAddr : Addr) :
    List TokenAmount → Except ContractError BalMap
  | [] => .ok bals
  | t :: rest =>
    if t.amount = 0 then .error .invalidZeroAmount
    else
      match checkedAdd (mgetD bals (toAddr, t.token_id) 0) t.amount with
      | none => .error .overflow
      | some v => addToLoop (mset bals (toAddr, t.token_id) v) toAddr rest

/-- Per-line-item approval consumption inside `update_balances` (lines
684-705): when the caller differs from the funds owner, load the per-token
approval (absent treated as the zero default); fail `Expired` if the stored
approval is expired; delete the entry when `approval.amount <= amount`,
otherwise decrement it by exactly `amount`. -/
def consumeItem (env : Env) (sender fromAddr : Addr) (taps : TapMap)
    (t : TokenAmount) : Except ContractError TapMap :=
  if fromAddr = sender then .ok taps
  else
    let ap := mgetD taps (t.token_id, fromAddr, sender) TokenApproval.zero
    if ap.isExpired env then .error .expired
    else if ap.amount ≤ t.amount then
      .ok (merase taps (t.token_id, fromAddr, sender))
    else
      .ok (mset taps (t.token_id, fromAddr, sender)
            ⟨ap.amount - t.amount, ap.expiration⟩)

/-- Third loop of `update_balances` (from present): per line item, reject
zero amount, consume the per-token approval, and when burning decrement
the Supply Counter. -/
def consumeLoop (env : Env) (sender fromAddr : Addr) (burning : Bool)
    (taps : TapMap) (sup : SupMap) :
    List TokenAmount → Except ContractError (TapMap × SupMap)
  | [] => .ok (taps, sup)
  | t :: rest =>
    if t.amount = 0 then .error .invalidZeroAmount
    else
      match consumeItem env sender fromAddr taps t with
      | .error e => .error e
      | .ok taps1 =>
        if burning then
          match decrement_tokens sup t.token_id t.amount with
          | .error e => .error e
          | .ok sup1 => consumeLoop env sender fromAddr burning taps1 sup1 rest
        else consumeLoop env sender fromAddr burning taps1 sup rest

/-- Mint-mode loop of `update_balances` (lines 728-733): per line item,
reject zero amount and increment the Supply Counter. -/
def mintSupplyLoop (sup : SupMap) :
    List TokenAmount → Except ContractError SupMap
  | [] => .ok sup
  | t :: rest =>
    if t.amount = 0 then .error .invalidZeroAmount
    else
      match increment_tokens sup t.token_id t.amount with
      | .error e => .error e
      | .ok sup1 => mintSupplyLoop sup1 rest

/-- `update_balances` (execute.rs lines 621-740): the single entry point
for all balance mutation.  `from` absent = mint, `to` absent = burn, both
present = transfer; both absent is the Rust panic branch. -/
def update_balances (env : Env) (info : MessageInfo) (s : ContractState)
    (fromA toA : Option Addr) (tokens : List TokenAmount) : CallResult :=
  match (match fromA with
         | some f => subFromLoop s.balances f tokens
         | none => .ok s.balances) with
  | .error e => .error e
  | .ok bals1 =>
    match (match toA with
           | some t => addToLoop bals1 t tokens
           | none => .ok bals1) with
    | .error e => .error e
    | .ok bals2 =>
      match fromA with
      | some f =>
        match consumeLoop env info.sender f toA.isNone s.tokenApproves s.supply tokens with
        | .error e => .error e
        | .ok (taps, sup) =>
          match toA with
          | some t =>
            if f = t then .error (.unauthorized "Cannot send to self")
            else .ok ({ s with balances := bals2, tokenApproves := taps, supply := sup },
                      transferEventAttrs info f t tokens)
          | none =>
            .ok ({ s with balances := bals2, tokenApproves := taps, supply := sup },
                 burnEventAttrs info f tokens)
      | none =>
        match toA with
        | some t =>
          match mintSupplyLoop s.supply tokens with
          | .error e => .error e
          | .ok sup =>
            .ok ({ s with balances := bals2, supply := sup },
                 mintEventAttrs info t tokens)
        | none => .error (.panicked "Invalid transfer: from and to cannot both be None")

/-! ## Authorization (`verify_approval`, execute.rs lines 743-817) -/

/-- `get_active_token_approval` (lines 819-846): the stored per-token
approval, but only while unexpired. -/
def get_active_token_approval (env : Env) (taps : TapMap)
    (owner operator : Addr) (id : TokenId) : Option TokenApproval :=
  match mlookup taps (id, owner, operator) with
  | some ap => if ap.isExpired env then none else some ap
  | none => none

/-- `verify_approval` (lines 743-800): owner or blanket operator is
authorized up to the owner's balance; else an active per-token approval
authorizes up to `min(approval.amount, balance)`; else not-found. -/
def verify_approval (env : Env) (info : MessageInfo) (s : ContractState)
    (owner : Addr) (id : TokenId) (amount : Nat) :
    Except ContractError TokenAmount :=
  let operator := info.sender
  let ownerBalance := mgetD s.balances (owner, id) 0
  if owner = operator ∨ verify_all_approval env s.approves owner operator = true then
    if ownerBalance < amount then
      .error (.notEnoughTokens ownerBalance amount)
    else .ok ⟨id, amount⟩
  else
    match get_active_token_approval env s.tokenApproves owner operator id with
    | some ap =>
      let available := min ap.amount ownerBalance
      if available < amount then .error (.notEnoughTokens available amount)
      else .ok ⟨id, amount⟩
    | none => .error (.stdNotFound "approval")

/-- `verify_approvals` (lines 803-817): per-line-item `verify_approval`,
failing the whole batch on the first failure. -/
def verify_approvals (env : Env) (info : MessageInfo) (s : ContractState)
    (owner : Addr) : List TokenAmount → Except ContractError (List TokenAmount)
  | [] => .ok []
  | t :: rest =>
    match verify_approval env info s owner t.token_id t.amount with
    | .error e => .error e
    | .ok out =>
      match verify_approvals env info s owner rest with
      | .error e => .error e
      | .ok outs => .ok (out :: outs)

/-! ## Entry points (execute.rs lines 159-614) -/

/-- `msg::Cw1155MintMsg`: one mint line item with optional metadata. -/
structure Cw1155MintMsg where
  token_id : TokenId
  amount : Nat
  token_uri : Option String
  extension : Nat
deriving DecidableEq, Repr

/-- `mint` (lines 159-208): `assert_owner`, delegate to the Transfer Engine
in mint mode, then create the TokenInfo only if the token_id is new. -/
def mint (env : Env) (info : MessageInfo) (s : ContractState)
    (recipient : Addr) (msg : Cw1155MintMsg) : CallResult :=
  match assert_owner s info.sender with
  | .error e => .error e
  | .ok _ =>
    match update_balances env info s none (some recipient)
        [⟨msg.token_id, msg.amount⟩] with
    | .error e => .error e
    | .ok (s1, ev) =>
      if (mlookup s1.tokens msg.token_id).isSome then .ok (s1, ev)
      else
        .ok ({ s1 with tokens := mset s1.tokens msg.token_id
                        ⟨msg.token_uri, msg.extension⟩ }, ev)

/-- The token-registry fold of `mint_batch` (lines 232-250): per message in
order, create the TokenInfo only when the token_id is not yet present. -/
def mintBatchTokens (tm : TokMap) : List Cw1155MintMsg → TokMap
  | [] => tm
  | m :: rest =>
    if (mlookup tm m.token_id).isSome then mintBatchTokens tm rest
    else mintBatchTokens (mset tm m.token_id ⟨m.token_uri, m.extension⟩) rest

/-- `mint_batch` (lines 210-257): `assert_owner`, register new token_ids,
then delegate the whole batch to the Transfer Engine in mint mode. -/
def mint_batch (env : Env) (info : MessageInfo) (s : ContractState)
    (recipient : Addr) (msgs : List Cw1155MintMsg) : CallResult :=
  match assert_owner s info.sender with
  | .error e => .error e
  | .ok _ =>
    let s0 := { s with tokens := mintBatchTokens s.tokens msgs }
    update_balances env info s0 none (some recipient)
      (msgs.map (fun m => ⟨m.token_id, m.amount⟩))

/-- `send` (lines 259-322): resolve `from` (default: caller), authorize via
`verify_approval`, then delegate to the Transfer Engine in transfer mode.
(Receiver callbacks and native-fund forwarding produce outbound messages,
not state or attributes, and are not modelled.) -/
def send (env : Env) (info : MessageInfo) (s : ContractState)
    (fromA : Option Addr) (toA : Addr) (id : TokenId) (amount : Nat) : CallResult :=
  let f := fromA.getD info.sender
  match verify_approval env info s f id amount with
  | .error e => .error e
  | .ok bu => update_balances env info s (some f) (some toA) [⟨id, bu.amount⟩]

/-- `send_batch` (lines 324-380): batch form of `send`. -/
def send_batch (env : Env) (info : MessageInfo) (s : ContractState)
    (fromA : Option Addr) (toA : Addr) (batch : List TokenAmount) : CallResult :=
  let f := fromA.getD info.sender
  match verify_approvals env info s f batch with
  | .error e => .error e
  | .ok batch1 => update_balances env info s (some f) (some toA) batch1

/-- `burn` (lines 382-421): resolve `from`, authorize (whoever can transfer
can burn), then delegate to the Transfer Engine in burn mode. -/
def burn (env : Env) (info : MessageInfo) (s : ContractState)
    (fromA : Option Addr) (id : TokenId) (amount : Nat) : CallResult :=
  let f := fromA.getD info.sender
  match verify_approval env info s f id amount with
  | .error e => .error e
  | .ok bu => update_balances env info s (some f) none [⟨id, bu.amount⟩]

/-- `burn_batch` (lines 423-448): batch form of `burn`. -/
def burn_batch (env : Env) (info : MessageInfo) (s : ContractState)
    (fromA : Option Addr) (batch : List TokenAmount) : CallResult :=
  let f := fromA.getD info.sender
  match verify_approvals env info s f batch with
  | .error e => .error e
  | .ok batch1 => update_balances env info s (some f) none batch1

/-- `approve_token` (lines 450-501): reject already-expired expiration
(default never), zero amount, and self-approval; then overwrite the
approval for `(token_id, sender, operator)`. -/
def approve_token (env : Env) (info : MessageInfo) (s : ContractState)
    (operator : Addr) (id : TokenId) (approval_amount : Nat)
    (expiration? : Option Expiration) : CallResult :=
  let expiration := expiration?.getD .never
  if expiration.isExpired env.block then .error .expired
  else if approval_amount = 0 then .error .invalidZeroAmount
  else if info.sender = operator then
    .error (.unauthorized "Operator cannot be the owner")
  else
    .ok ({ s with tokenApproves := mset s.tokenApproves (id, info.sender, operator)
                    ⟨approval_amount, expiration⟩ },
         approveEventAttrs info.sender operator id approval_amount)

/-- `approve_all` (lines 503-541): reject self-approval, then reject
already-expired expiration (default never), then store the blanket
operator approval. -/
def approve_all (env : Env) (info : MessageInfo) (s : ContractState)
    (operator : Addr) (expires? : Option Expiration) : CallResult :=
  if info.sender = operator then
    .error (.unauthorized "Operator cannot be the owner")
  else
    let expires := expires?.getD .never
    if expires.isExpired env.block then .error .expired
    else
      .ok ({ s with approves := mset s.approves (info.sender, operator) expires },
           approveAllEventAttrs info.sender operator)

/-- `revoke_token` (lines 543-588): load the existing approval (not-found
if absent); `revoke_amount = min(amount.unwrap_or(MAX), existing.amount)`;
delete the entry when that equals the existing amount, else decrement. -/
def revoke_token (info : MessageInfo) (s : ContractState)
    (operator : Addr) (id : TokenId) (amount? : Option Nat) : CallResult :=
  match mlookup s.tokenApproves (id, info.sender, operator) with
  | none => .error (.stdNotFound "TokenApproval")
  | some prev =>
    let revoke_amount := min (amount?.getD UMAX) prev.amount
    if revoke_amount = prev.amount then
      .ok ({ s with tokenApproves := merase s.tokenApproves (id, info.sender, operator) },
           revokeEventAttrs info.sender operator id revoke_amount)
    else
      .ok ({ s with tokenApproves := mset s.tokenApproves (id, info.sender, operator)
                      ⟨prev.amount - revoke_amount, prev.expiration⟩ },
           revokeEventAttrs info.sender operator id revoke_amount)

/-- `revoke_all` (lines 590-614): unconditionally delete the blanket
approval for `(sender, operator)` (idempotent if absent). -/
def revoke_all (info : MessageInfo) (s : ContractState) (operator : Addr) : CallResult :=
  .ok ({ s with approves := merase s.approves (info.sender, operator) },
       revokeAllEventAttrs info.sender operator)

/-- `msg::Cw1155InstantiateMsg`, reduced to the fields instantiate reads. -/
structure Cw1155InstantiateMsg where
  name : String
  symbol : String
  minter : Option Addr
  default_uri : Option String
deriving DecidableEq, Repr

/-- `instantiate` (lines 42-82): store collection info, the owner (default:
caller), zero supply and the default base uri; the response carries the
single attribute `("minter", minter)`. -/
def instantiate (info : MessageInfo) (msg : Cw1155InstantiateMsg) :
    ContractState × List Attr :=
  let minter := msg.minter.getD info.sender
  ({ owner := minter, balances := [], supply := [], tokenApproves := [],
     approves := [], tokens := [], collectionName := msg.name,
     collectionSymbol := msg.symbol, defaultBaseUri := msg.default_uri },
   [("minter", minter)])

/-! ## Dispatcher -/

/-- The balance/approval execute messages (`msg::Cw1155ExecuteMsg`,
restricted to the operations the Transfer Engine and Approval Store serve;
metadata updates and ownership transfer are out of this development's
scope). -/
inductive Msg where
  | mintMsg (recipient : Addr) (m : Cw1155MintMsg) : Msg
  | mintBatchMsg (recipient : Addr) (msgs : List Cw1155MintMsg) : Msg
  | sendMsg (fromA : Option Addr) (toA : Addr) (id : TokenId) (amount : Nat) : Msg
  | sendBatchMsg (fromA : Option Addr) (toA : Addr) (batch : List TokenAmount) : Msg
  | burnMsg (fromA : Option Addr) (id : TokenId) (amount : Nat) : Msg
  | burnBatchMsg (fromA : Option Addr) (batch : List TokenAmount) : Msg
  | approveMsg (operator : Addr) (id : TokenId) (amount : Nat)
      (expiration? : Option Expiration) : Msg
  | approveAllMsg (operator : Addr) (expires? : Option Expiration) : Msg
  | revokeMsg (operator : Addr) (id : TokenId) (amount? : Option Nat) : Msg
  | revokeAllMsg (operator : Addr) : Msg
deriving DecidableEq, Repr

/-- `execute` (lines 84-143): dispatch one message. -/
def execute (env : Env) (info : MessageInfo) (s : ContractState) : Msg → CallResult
  | .mintMsg recipient m => mint env info s recipient m
  | .mintBatchMsg recipient msgs => mint_batch env info s recipient msgs
  | .sendMsg fromA toA id amount => send env info s fromA toA id amount
  | .sendBatchMsg fromA toA batch => send_batch env info s fromA toA batch
  | .burnMsg fromA id amount => burn env info s fromA id amount
  | .burnBatchMsg fromA batch => burn_batch env info s fromA batch
  | .approveMsg operator id amount expiration? =>
      approve_token env info s operator id amount expiration?
  | .approveAllMsg operator expires? => approve_all env info s operator expires?
  | .revokeMsg operator id amount? => revoke_token info s operator id amount?
  | .revokeAllMsg operator => revoke_all info s operator

/-- The state after one call, under the host's all-or-nothing transaction
boundary: an erroring call commits nothing. -/
def step (env : Env) (info : MessageInfo) (s : ContractState) (msg : Msg) :
    ContractState :=
  match execute env info s msg with
  | .ok (s1, _) => s1
  | .error _ => s

/-! ## Spec-side authorization definition (claim C2) -/

/-- Authorization exactly as the spec words it (§4.2 resolution order):
1. caller == owner, or caller holds a non-expired blanket OperatorApproval
for owner: authorized up to owner's current balance, failing
`NotEnoughTokens{available: balance, requested}` when balance < amount;
2. else a present, non-expired per-token approval `(token_id, owner,
caller)` authorizes up to `min(approval.amount, owner_balance)`, failing
`NotEnoughTokens{available: ceiling, requested}` when that ceiling <
amount; 3. else a not-found error. -/
def verify_approval_spec (env : Env) (info : MessageInfo) (s : ContractState)
    (owner : Addr) (id : TokenId) (amount : Nat) :
    Except ContractError TokenAmount :=
  let balance := mgetD s.balances (owner, id) 0
  let blanket : Bool :=
    match mlookup s.approves (owner, info.sender) with
    | some ex => decide (ex.isExpired env.block = false)
    | none => false
  if info.sender = owner || blanket then
    if balance < amount then .error (.notEnoughTokens balance amount)
    else .ok ⟨id, amount⟩
  else
    match mlookup s.tokenApproves (id, owner, info.sender) with
    | some ap =>
      if ap.isExpired env = false then
        if min ap.amount balance < amount then
          .error (.notEnoughTokens (min ap.amount balance) amount)
        else .ok ⟨id, amount⟩
      else .error (.stdNotFound "approval")
    | none => .error (.stdNotFound "approval")

/-! ## Expected first attribute per message kind (claim C8) -/

/-- The first attribute each message kind's successful response carries:
mint/burn/transfer pick the single/batch suffix by token count; approve
and revoke operations use fixed action names. -/
def expectedFirstAttr (msg : Msg) : Attr :=
  match msg with
  | .mintMsg _ _ => ("action", "mint_single")
  | .mintBatchMsg _ msgs =>
      ("action", if msgs.length = 1 then "mint_single" else "mint_batch")
  | .sendMsg _ _ _ _ => ("action", "transfer_single")
  | .sendBatchMsg _ _ batch =>
      ("action", if batch.length = 1 then "transfer_single" else "transfer_batch")
  | .burnMsg _ _ _ => ("action", "burn_single")
  | .burnBatchMsg _ batch =>
      ("action", if batch.length = 1 then "burn_single" else "burn_batch")
  | .approveMsg _ _ _ _ => ("action", "approve_single")
  | .approveAllMsg _ _ => ("action", "approve_all")
  | .revokeMsg _ _ _ => ("action", "revoke_single")
  | .revokeAllMsg _ => ("action", "revoke_all")

/-! ## Concrete fixture states used by witnesses and counterexamples -/

/-- A fixture block environment: height 100, time 1000. -/
def envW : Env := ⟨⟨100, 1000⟩⟩

/-- The minter's message info. -/
def infoMinterW : MessageInfo := ⟨"minter"⟩

/-- Alice's message info. -/
def infoAliceW : MessageInfo := ⟨"alice"⟩

/-- Bob's message info. -/
def infoBobW : MessageInfo := ⟨"bob"⟩

/-- A fixture instantiate message. -/
def instMsgW : Cw1155InstantiateMsg := ⟨"col", "COL", some "minter", none⟩

/-- The fresh post-instantiate state. -/
def sEmptyW : ContractState := (instantiate infoMinterW instMsgW).1

/-- A fixture mint message: 100 of token "A", uri and extension payload. -/
def mintMsgW : Cw1155MintMsg := ⟨"A", 100, some "uri", 7⟩

/-- Scenario A state: the minter minted 100 of "A" to Alice. -/
def sMintedW : ContractState :=
  step envW infoMinterW sEmptyW (.mintMsg "alice" mintMsgW)

/-- The attribute list of the Scenario A mint. -/
def mintAttrsW : List Attr :=
  [("action", "mint_single"), ("sender", "minter"), ("recipient", "alice"),
   ("token_id", "A"), ("amount", "100")]

/-- Scenario B state: after Scenario A, Alice approved Bob for 30 of "A"
until height 200, and Bob sent 30 of "A" from Alice to Carol. -/
def sScenBW : ContractState :=
  step envW infoBobW
    (step envW infoAliceW sMintedW (.approveMsg "bob" "A" 30 (some (.atHeight 200))))
    (.sendMsg (some "alice") "carol" "A" 30)

/-- A second mint of "A" with different metadata (ignored by the code). -/
def mintMsg2W : Cw1155MintMsg := ⟨"A", 5, some "other", 9⟩

/-- The state after the second mint of "A" (to Bob). -/
def sSecondMintW : ContractState :=
  step envW infoMinterW sMintedW (.mintMsg "bob" mintMsg2W)

/-- The attribute list of the second mint. -/
def mintAttrs2W : List Attr :=
  [("action", "mint_single"), ("sender", "minter"), ("recipient", "bob"),
   ("token_id", "A"), ("amount", "5")]

/-- A fixture approval store holding one approval of 30 for Bob on Alice's
token "A", expiring at height 200. -/
def tapsW : TapMap := [(("A", "alice", "bob"), ⟨30, .atHeight 200⟩)]

/-- A fixture state for the blanket-vs-consumption claim: Alice holds 100
of "A", Bob holds a never-expiring blanket approval from Alice and a
per-token approval of 30 for "A" expiring at height 50 (already expired at
height 100). -/
def sBlanketExpiredW : ContractState :=
  { sMintedW with
    approves := [(("alice", "bob"), .never)],
    tokenApproves := [(("A", "alice", "bob"), ⟨30, .atHeight 50⟩)] }

/-- Same fixture with the per-token approval never expiring. -/
def sBlanketLiveW : ContractState :=
  { sMintedW with
    approves := [(("alice", "bob"), .never)],
    tokenApproves := [(("A", "alice", "bob"), ⟨30, .never⟩)] }

/-! ## Map lemmas -/

section MapLemmas

variable {K V : Type} [DecidableEq K]

theorem mlookup_merase_self (m : List (K × V)) (k : K) :
    mlookup (merase m k) k = none := by
  induction m with
  | nil => rfl
  | cons p rest ih =>
    obtain ⟨k', v⟩ := p
    by_cases h : k' = k
    · simpa [merase, h] using ih
    · have h2 : ¬ k = k' := fun hh => h hh.symm
      simp [merase, h, mlookup, h2, ih]

theorem mlookup_merase_ne (m : List (K × V)) (k k' : K) (h : k' ≠ k) :
    mlookup (merase m k) k' = mlookup m k' := by
  induction m with
  | nil => rfl
  | cons p rest ih =>
    obtain ⟨ka, v⟩ := p
    by_cases hk : ka = k
    · subst hk
      simp [merase, mlookup, h, ih]
    · by_cases hk' : k' = ka
      · simp [merase, hk, mlookup, hk']
      · simp [merase, hk, mlookup, hk', ih]

theorem mlookup_mset_self (m : List (K × V)) (k : K) (v : V) :
    mlookup (mset m k v) k = some v := by
  simp [mset, mlookup]

theorem mlookup_mset_ne (m : List (K × V)) (k k' : K) (v : V) (h : k' ≠ k) :
    mlookup (mset m k v) k' = mlookup m k' := by
  simp [mset, mlookup, h, mlookup_merase_ne m k k' h]

theorem not_mem_mkeys_merase (m : List (K × V)) (k : K) :
    k ∉ mkeys (merase m k) := by
  induction m with
  | nil => simp [merase, mkeys]
  | cons p rest ih =>
    obtain ⟨ka, v⟩ := p
    by_cases hk : ka = k
    · simpa [merase, hk] using ih
    · simp [merase, hk, mkeys] at ih ⊢
      exact ⟨fun hh => hk hh.symm, ih⟩

theorem mkeys_merase_sublist (m : List (K × V)) (k : K) :
    List.Sublist (mkeys (merase m k)) (mkeys m) := by
  induction m with
  | nil => simp [merase, mkeys]
  | cons p rest ih =>
    obtain ⟨ka, v⟩ := p
    by_cases hk : ka = k
    · simp only [merase, hk, if_pos rfl, mkeys, List.map_cons]
      exact ih.trans (List.sublist_cons_self _ _)
    · simp only [merase, if_neg hk, mkeys, List.map_cons]
      exact ih.cons₂ _

theorem mkeys_nodup_merase (m : List (K × V)) (k : K)
    (h : (mkeys m).Nodup) : (mkeys (merase m k)).Nodup :=
  (mkeys_merase_sublist m k).nodup h

theorem mkeys_nodup_mset (m : List (K × V)) (k : K) (v : V)
    (h : (mkeys m).Nodup) : (mkeys (mset m k v)).Nodup := by
  simp only [mset, mkeys, List.map_cons]
  exact List.nodup_cons.2 ⟨not_mem_mkeys_merase m k, mkeys_nodup_merase m k h⟩

theorem merase_of_not_mem (m : List (K × V)) (k : K) (h : k ∉ mkeys m) :
    merase m k = m := by
  induction m with
  | nil => rfl
  | cons p rest ih =>
    obtain ⟨ka, v⟩ := p
    simp only [mkeys, List.map_cons, List.mem_cons] at h
    push_neg at h
    have hk : ¬ ka = k := fun hh => h.1 hh.symm
    simp [merase, hk, ih h.2]

theorem mlookup_eq_none_of_not_mem (m : List (K × V)) (k : K)
    (h : k ∉ mkeys m) : mlookup m k = none := by
  induction m with
  | nil => rfl
  | cons p rest ih =>
    obtain ⟨ka, v⟩ := p
    simp only [mkeys, List.map_cons, List.mem_cons] at h
    push_neg at h
    simp [mlookup, h.1, ih h.2]

end MapLemmas

/-! ## Balance-sum and supply machinery (claim C1) -/

/-- The sum over all owners of `Balance(owner, token_id)`: fold over the
ledger's entries whose token id matches. -/
def balSum (bals : BalMap) (id : TokenId) : Nat :=
  bals.foldr (fun p acc => (if p.1.2 = id then p.2 else 0) + acc) 0

/-- The per-token total of a line-item list. -/
def sumAmounts (tokens : List TokenAmount) (id : TokenId) : Nat :=
  tokens.foldr (fun t acc => (if t.token_id = id then t.amount else 0) + acc) 0

/-- The Supply Counter reading for one token id (absent treated as zero). -/
def supplyOf (sup : SupMap) (id : TokenId) : Nat := mgetD sup id 0

theorem balSum_nil (id : TokenId) : balSum [] id = 0 := rfl

theorem balSum_cons (k : Addr × TokenId) (v : Nat) (m : BalMap) (id : TokenId) :
    balSum ((k, v) :: m) id = (if k.2 = id then v else 0) + balSum m id := rfl

theorem sumAmounts_cons (t : TokenAmount) (rest : List TokenAmount) (id : TokenId) :
    sumAmounts (t :: rest) id
      = (if t.token_id = id then t.amount else 0) + sumAmounts rest id := rfl

/-- Splitting the balance sum at one key, given no duplicate keys. -/
theorem balSum_decompose (m : BalMap) (k : Addr × TokenId) (id : TokenId)
    (h : (mkeys m).Nodup) :
    balSum m id
      = (if k.2 = id then mgetD m k 0 else 0) + balSum (merase m k) id := by
  induction m with
  | nil => simp [balSum_nil, merase, mgetD, mlookup]
  | cons p rest ih =>
    obtain ⟨ka, v⟩ := p
    simp only [mkeys, List.map_cons, List.nodup_cons] at h
    by_cases hk : ka = k
    · subst hk
      have h1 : merase ((ka, v) :: rest) ka = rest := by
        simp [merase, merase_of_not_mem rest ka h.1]
      have h2 : mgetD ((ka, v) :: rest) ka 0 = v := by simp [mgetD, mlookup]
      rw [h1, h2, balSum_cons]
    · have h1 : merase ((ka, v) :: rest) k = (ka, v) :: merase rest k := by
        simp [merase, hk]
      have h2 : mgetD ((ka, v) :: rest) k 0 = mgetD rest k 0 := by
        have : ¬ k = ka := fun hh => hk hh.symm
        simp [mgetD, mlookup, this]
      rw [h1, h2, balSum_cons, balSum_cons, ih h.2]
      ring

/-- Overwriting one balance entry shifts the per-token sum by the
difference between the new and old values (additive form). -/
theorem balSum_mset (m : BalMap) (k : Addr × TokenId) (v : Nat) (id : TokenId)
    (h : (mkeys m).Nodup) :
    balSum (mset m k v) id + (if k.2 = id then mgetD m k 0 else 0)
      = balSum m id + (if k.2 = id then v else 0) := by
  have hd := balSum_decompose m k id h
  have : balSum (mset m k v) id
      = (if k.2 = id then v else 0) + balSum (merase m k) id := balSum_cons k v _ id
  omega

theorem supplyOf_mset_self (sup : SupMap) (id : TokenId) (v : Nat) :
    supplyOf (mset sup id v) id = v := by
  simp [supplyOf, mgetD, mlookup_mset_self]

theorem supplyOf_mset_ne (sup : SupMap) (id id' : TokenId) (v : Nat) (h : id' ≠ id) :
    supplyOf (mset sup id v) id' = supplyOf sup id' := by
  simp [supplyOf, mgetD, mlookup_mset_ne sup id id' v h]

theorem checkedSub_some {a b v : Nat} (h : checkedSub a b = some v) :
    b ≤ a ∧ v = a - b := by
  unfold checkedSub at h
  split at h
  · cases h; exact ⟨by assumption, rfl⟩
  · cases h

theorem checkedAdd_some {a b v : Nat} (h : checkedAdd a b = some v) :
    v = a + b := by
  unfold checkedAdd at h
  split at h
  · cases h; rfl
  · cases h

/-- `balSum_mset` specialised to `(owner, token_id)` keys. -/
theorem balSum_mset_pair (m : BalMap) (o : Addr) (tid : TokenId) (v : Nat)
    (id : TokenId) (h : (mkeys m).Nodup) :
    balSum (mset m (o, tid) v) id + (if tid = id then mgetD m (o, tid) 0 else 0)
      = balSum m id + (if tid = id then v else 0) := by
  simpa using balSum_mset m (o, tid) v id h

theorem decrement_tokens_ok {sup sup1 : SupMap} {id : TokenId} {a : Nat}
    (h : decrement_tokens sup id a = .ok sup1) :
    ∀ tid, supplyOf sup1 tid + (if id = tid then a else 0) = supplyOf sup tid := by
  intro tid
  unfold decrement_tokens at h
  cases hcs : checkedSub (mgetD sup id 0) a with
  | none => rw [hcs] at h; cases h
  | some v =>
    rw [hcs] at h
    cases h
    obtain ⟨hle, hv⟩ := checkedSub_some hcs
    by_cases hid : id = tid
    · subst hid
      rw [supplyOf_mset_self, if_pos rfl]
      have hm : supplyOf sup id = mgetD sup id 0 := rfl
      omega
    · rw [supplyOf_mset_ne sup id tid v (fun hh => hid hh.symm), if_neg hid]
      omega

theorem increment_tokens_ok {sup sup1 : SupMap} {id : TokenId} {a : Nat}
    (h : increment_tokens sup id a = .ok sup1) :
    ∀ tid, supplyOf sup1 tid = supplyOf sup tid + (if id = tid then a else 0) := by
  intro tid
  unfold increment_tokens at h
  cases hca : checkedAdd (mgetD sup id 0) a with
  | none => rw [hca] at h; cases h
  | some v =>
    rw [hca] at h
    cases h
    have hv := checkedAdd_some hca
    by_cases hid : id = tid
    · subst hid
      rw [supplyOf_mset_self, if_pos rfl]
      have hm : supplyOf sup id = mgetD sup id 0 := rfl
      omega
    · rw [supplyOf_mset_ne sup id tid v (fun hh => hid hh.symm), if_neg hid]
      omega

/-- The from-side loop, on success: keys stay nodup and each per-token
balance sum drops by exactly the per-token total of the line items. -/
theorem subFromLoop_ok (items : List TokenAmount) :
    ∀ (bals bals' : BalMap) (f : Addr), (mkeys bals).Nodup →
      subFromLoop bals f items = .ok bals' →
      (mkeys bals').Nodup ∧
        ∀ id, balSum bals' id + sumAmounts items id = balSum bals id := by
  induction items with
  | nil =>
    intro bals bals' f hnd hok
    simp only [subFromLoop] at hok
    cases hok
    exact ⟨hnd, fun id => by simp [sumAmounts]⟩
  | cons t rest ih =>
    intro bals bals' f hnd hok
    simp only [subFromLoop] at hok
    by_cases hz : t.amount = 0
    · rw [if_pos hz] at hok; cases hok
    · rw [if_neg hz] at hok
      split at hok
      · cases hok
      · rename_i b hlk
        split at hok
        · cases hok
        · rename_i v hcs
          have hnd1 := mkeys_nodup_mset bals (f, t.token_id) v hnd
          obtain ⟨hnd2, hsum⟩ := ih _ bals' f hnd1 hok
          refine ⟨hnd2, fun id => ?_⟩
          have hms := balSum_mset_pair bals f t.token_id v id hnd
          have hb : mgetD bals (f, t.token_id) 0 = b := by simp [mgetD, hlk]
          rw [hb] at hms
          obtain ⟨hle, hv⟩ := checkedSub_some hcs
          have hs := hsum id
          rw [sumAmounts_cons]
          by_cases hid : t.token_id = id
          · simp only [if_pos hid] at hms ⊢
            omega
          · simp only [if_neg hid] at hms ⊢
            omega

/-- The to-side loop, on success: keys stay nodup and each per-token
balance sum grows by exactly the per-token total of the line items. -/
theorem addToLoop_ok (items : List TokenAmount) :
    ∀ (bals bals' : BalMap) (toA : Addr), (mkeys bals).Nodup →
      addToLoop bals toA items = .ok bals' →
      (mkeys bals').Nodup ∧
        ∀ id, balSum bals' id = balSum bals id + sumAmounts items id := by
  induction items with
  | nil =>
    intro bals bals' toA hnd hok
    simp only [addToLoop] at hok
    cases hok
    exact ⟨hnd, fun id => by simp [sumAmounts]⟩
  | cons t rest ih =>
    intro bals bals' toA hnd hok
    simp only [addToLoop] at hok
    by_cases hz : t.amount = 0
    · rw [if_pos hz] at hok; cases hok
    · rw [if_neg hz] at hok
      split at hok
      · cases hok
      · rename_i v hca
        have hnd1 := mkeys_nodup_mset bals (toA, t.token_id) v hnd
        obtain ⟨hnd2, hsum⟩ := ih _ bals' toA hnd1 hok
        refine ⟨hnd2, fun id => ?_⟩
        have hms := balSum_mset_pair bals toA t.token_id v id hnd
        have hv := checkedAdd_some hca
        have hs := hsum id
        rw [sumAmounts_cons]
        by_cases hid : t.token_id = id
        · simp only [if_pos hid] at hms ⊢
          omega
        · simp only [if_neg hid] at hms ⊢
          omega

/-- The approval/supply loop, on success: when burning, each per-token
supply drops by exactly the per-token total; otherwise the Supply Counter
is untouched. -/
theorem consumeLoop_ok (env : Env) (sender f : Addr) (burning : Bool)
    (items : List TokenAmount) :
    ∀ (taps : TapMap) (sup : SupMap) (taps' : TapMap) (sup' : SupMap),
      consumeLoop env sender f burning taps sup items = .ok (taps', sup') →
      (burning = true →
        ∀ id, supplyOf sup' id + sumAmounts items id = supplyOf sup id) ∧
      (burning = false → sup' = sup) := by
  induction items with
  | nil =>
    intro taps sup taps' sup' hok
    simp only [consumeLoop] at hok
    cases hok
    exact ⟨fun _ id => by simp [sumAmounts], fun _ => rfl⟩
  | cons t rest ih =>
    intro taps sup taps' sup' hok
    simp only [consumeLoop] at hok
    by_cases hz : t.amount = 0
    · rw [if_pos hz] at hok; cases hok
    · rw [if_neg hz] at hok
      split at hok
      · cases hok
      · rename_i taps1 hci
        cases burning with
        | true =>
          rw [if_pos rfl] at hok
          split at hok
          · cases hok
          · rename_i sup1 hdt
            obtain ⟨hb, _⟩ := ih taps1 sup1 taps' sup' hok
            refine ⟨fun _ id => ?_, fun hcon => by cases hcon⟩
            have h1 := decrement_tokens_ok hdt id
            have h2 := hb rfl id
            rw [sumAmounts_cons]
            by_cases hid : t.token_id = id
            · rw [if_pos hid] at h1 ⊢
              omega
            · rw [if_neg hid] at h1 ⊢
              omega
        | false =>
          rw [if_neg Bool.false_ne_true] at hok
          obtain ⟨_, hs⟩ := ih taps1 sup taps' sup' hok
          exact ⟨fun hcon => absurd hcon Bool.false_ne_true, fun _ => hs rfl⟩

/-- The mint-mode supply loop, on success: each per-token supply grows by
exactly the per-token total of the line items. -/
theorem mintSupplyLoop_ok (items : List TokenAmount) :
    ∀ (sup sup' : SupMap), mintSupplyLoop sup items = .ok sup' →
      ∀ id, supplyOf sup' id = supplyOf sup id + sumAmounts items id := by
  induction items with
  | nil =>
    intro sup sup' hok
    simp only [mintSupplyLoop] at hok
    cases hok
    intro id
    simp [sumAmounts]
  | cons t rest ih =>
    intro sup sup' hok
    simp only [mintSupplyLoop] at hok
    by_cases hz : t.amount = 0
    · rw [if_pos hz] at hok; cases hok
    · rw [if_neg hz] at hok
      split at hok
      · cases hok
      · rename_i sup1 hit
        intro id
        have h1 := increment_tokens_ok hit id
        have h2 := ih sup1 sup' hok id
        rw [sumAmounts_cons]
        by_cases hid : t.token_id = id
        · rw [if_pos hid] at h1 ⊢
          omega
        · rw [if_neg hid] at h1 ⊢
          omega

/-- The combined well-formedness and conservation invariant (claim C1): no
duplicate balance-ledger keys, and every token's Supply Counter equals the
sum over all owners of that token's balances. -/
def Inv (s : ContractState) : Prop :=
  (mkeys s.balances).Nodup ∧ ∀ id, supplyOf s.supply id = balSum s.balances id

/-- The Transfer Engine preserves the supply invariant in all three modes. -/
theorem update_balances_inv {env : Env} {info : MessageInfo} {s : ContractState}
    {fromA toA : Option Addr} {tokens : List TokenAmount}
    {s' : ContractState} {ev : List Attr}
    (hInv : Inv s) (hok : update_balances env info s fromA toA tokens = .ok (s', ev)) :
    Inv s' := by
  obtain ⟨hnd, hsup⟩ := hInv
  cases fromA with
  | none =>
    cases toA with
    | none =>
      simp only [update_balances] at hok
      cases hok
    | some t =>
      simp only [update_balances] at hok
      split at hok
      · cases hok
      · rename_i bals2 hadd
        split at hok
        · cases hok
        · rename_i sup hmint
          cases hok
          obtain ⟨hnd2, hbal⟩ := addToLoop_ok tokens s.balances bals2 t hnd hadd
          have hsup2 := mintSupplyLoop_ok tokens s.supply sup hmint
          refine ⟨hnd2, fun id => ?_⟩
          show supplyOf sup id = balSum bals2 id
          have h1 := hsup id
          rw [hsup2 id, hbal id]
          omega
  | some f =>
    cases toA with
    | none =>
      simp only [update_balances, Option.isNone_none] at hok
      split at hok
      · cases hok
      · rename_i bals1 hsub
        split at hok
        · cases hok
        · rename_i taps sup hcons
          cases hok
          obtain ⟨hnd1, hbal⟩ := subFromLoop_ok tokens s.balances bals1 f hnd hsub
          obtain ⟨hburn, _⟩ :=
            consumeLoop_ok env info.sender f true tokens s.tokenApproves s.supply taps sup hcons
          refine ⟨hnd1, fun id => ?_⟩
          show supplyOf sup id = balSum bals1 id
          have h1 := hsup id
          have h2 := hburn rfl id
          have h3 := hbal id
          omega
    | some t =>
      simp only [update_balances, Option.isNone_some] at hok
      split at hok
      · cases hok
      · rename_i bals1 hsub
        split at hok
        · cases hok
        · rename_i bals2 hadd
          split at hok
          · cases hok
          · rename_i taps sup hcons
            split at hok
            · cases hok
            · cases hok
              obtain ⟨hnd1, hbal1⟩ := subFromLoop_ok tokens s.balances bals1 f hnd hsub
              obtain ⟨hnd2, hbal2⟩ := addToLoop_ok tokens bals1 bals2 t hnd1 hadd
              obtain ⟨_, hkeep⟩ :=
                consumeLoop_ok env info.sender f false tokens s.tokenApproves s.supply
                  taps sup hcons
              refine ⟨hnd2, fun id => ?_⟩
              show supplyOf sup id = balSum bals2 id
              rw [hkeep rfl]
              have h1 := hsup id
              have h2 := hbal1 id
              have h3 := hbal2 id
              omega

/-- The dispatcher preserves `Inv` across every successful call; record
updates that leave balances and supply untouched preserve it
definitionally. -/
theorem execute_inv {env : Env} {info : MessageInfo} {s : ContractState}
    {msg : Msg} {s' : ContractState} {ev : List Attr}
    (hInv : Inv s) (hok : execute env info s msg = .ok (s', ev)) : Inv s' := by
  cases msg with
  | mintMsg rcpt m =>
    simp only [execute, mint] at hok
    split at hok
    · cases hok
    · split at hok
      · cases hok
      · rename_i s1 ev1 hub
        split at hok
        · cases hok
          exact update_balances_inv hInv hub
        · cases hok
          have h1 := update_balances_inv hInv hub
          exact h1
  | mintBatchMsg rcpt msgs =>
    simp only [execute, mint_batch] at hok
    split at hok
    · cases hok
    · have h0 : Inv { s with tokens := mintBatchTokens s.tokens msgs } := hInv
      exact update_balances_inv h0 hok
  | sendMsg fa ta id a =>
    simp only [execute, send] at hok
    split at hok
    · cases hok
    · exact update_balances_inv hInv hok
  | sendBatchMsg fa ta batch =>
    simp only [execute, send_batch] at hok
    split at hok
    · cases hok
    · exact update_balances_inv hInv hok
  | burnMsg fa id a =>
    simp only [execute, burn] at hok
    split at hok
    · cases hok
    · exact update_balances_inv hInv hok
  | burnBatchMsg fa batch =>
    simp only [execute, burn_batch] at hok
    split at hok
    · cases hok
    · exact update_balances_inv hInv hok
  | approveMsg op id a exp? =>
    simp only [execute, approve_token] at hok
    split at hok
    · cases hok
    · split at hok
      · cases hok
      · split at hok
        · cases hok
        · cases hok
          exact hInv
  | approveAllMsg op exp? =>
    simp only [execute, approve_all] at hok
    split at hok
    · cases hok
    · split at hok
      · cases hok
      · cases hok
        exact hInv
  | revokeMsg op id amount? =>
    simp only [execute, revoke_token] at hok
    split at hok
    · cases hok
    · split at hok
      · cases hok
        exact hInv
      · cases hok
        exact hInv
  | revokeAllMsg op =>
    simp only [execute, revoke_all] at hok
    cases hok
    exact hInv

/-- Singleton to-side loop: the recipient's balance for exactly that token
grows by exactly the amount. -/
theorem addToLoop_single {bals bals' : BalMap} {toA : Addr} {id : TokenId} {a : Nat}
    (hok : addToLoop bals toA [⟨id, a⟩] = .ok bals') :
    mgetD bals' (toA, id) 0 = mgetD bals (toA, id) 0 + a := by
  simp only [addToLoop] at hok
  split at hok
  · cases hok
  · split at hok
    · cases hok
    · rename_i v hca
      cases hok
      have hv := checkedAdd_some hca
      simp [mgetD, mlookup_mset_self, hv]

/-- Singleton from-side loop: the owner's balance for exactly that token
drops by exactly the amount (which was available). -/
theorem subFromLoop_single {bals bals' : BalMap} {f : Addr} {id : TokenId} {a : Nat}
    (hok : subFromLoop bals f [⟨id, a⟩] = .ok bals') :
    mgetD bals' (f, id) 0 + a = mgetD bals (f, id) 0 := by
  simp only [subFromLoop] at hok
  split at hok
  · cases hok
  · split at hok
    · cases hok
    · rename_i b hlk
      split at hok
      · cases hok
      · rename_i v hcs
        cases hok
        obtain ⟨hle, hv⟩ := checkedSub_some hcs
        have hb : mgetD bals (f, id) 0 = b := by simp [mgetD, hlk]
        have h2 : mgetD (mset bals (f, id) v) (f, id) 0 = v := by
          simp [mgetD, mlookup_mset_self]
        rw [h2, hb]
        omega

/-- A successful `verify_approval` returns exactly the requested pair. -/
theorem verify_approval_ok_eq {env : Env} {info : MessageInfo} {s : ContractState}
    {owner : Addr} {id : TokenId} {a : Nat} {bu : TokenAmount}
    (h : verify_approval env info s owner id a = .ok bu) : bu = ⟨id, a⟩ := by
  simp only [verify_approval] at h
  split at h
  · split at h
    · cases h
    · cases h
      rfl
  · split at h
    · split at h
      · cases h
      · cases h
        rfl
    · cases h

/-- A successful `verify_approvals` returns exactly the requested batch. -/
theorem verify_approvals_ok_eq {env : Env} {info : MessageInfo} {s : ContractState}
    {owner : Addr} :
    ∀ {tokens out : List TokenAmount},
      verify_approvals env info s owner tokens = .ok out → out = tokens := by
  intro tokens
  induction tokens with
  | nil =>
    intro out h
    simp only [verify_approvals] at h
    cases h
    rfl
  | cons t rest ih =>
    intro out h
    simp only [verify_approvals] at h
    split at h
    · cases h
    · rename_i bu hv
      split at h
      · cases h
      · rename_i outs hrest
        cases h
        rw [verify_approval_ok_eq hv, ih hrest]

/-- The Transfer Engine never touches the token registry or the blanket
approvals. -/
theorem update_balances_frame {env : Env} {info : MessageInfo} {s : ContractState}
    {fromA toA : Option Addr} {tokens : List TokenAmount}
    {s' : ContractState} {ev : List Attr}
    (hok : update_balances env info s fromA toA tokens = .ok (s', ev)) :
    s'.tokens = s.tokens ∧ s'.approves = s.approves ∧ s'.owner = s.owner := by
  cases fromA with
  | none =>
    cases toA with
    | none =>
      simp only [update_balances] at hok
      cases hok
    | some t =>
      simp only [update_balances] at hok
      split at hok
      · cases hok
      · split at hok
        · cases hok
        · cases hok
          exact ⟨rfl, rfl, rfl⟩
  | some f =>
    cases toA with
    | none =>
      simp only [update_balances, Option.isNone_none] at hok
      split at hok
      · cases hok
      · split at hok
        · cases hok
        · cases hok
          exact ⟨rfl, rfl, rfl⟩
    | some t =>
      simp only [update_balances, Option.isNone_some] at hok
      split at hok
      · cases hok
      · split at hok
        · cases hok
        · split at hok
          · cases hok
          · split at hok
            · cases hok
            · cases hok
              exact ⟨rfl, rfl, rfl⟩

/-- The attribute list a successful `update_balances` returns, by mode. -/
theorem update_balances_attrs {env : Env} {info : MessageInfo} {s : ContractState}
    {fromA toA : Option Addr} {tokens : List TokenAmount}
    {s' : ContractState} {ev : List Attr}
    (hok : update_balances env info s fromA toA tokens = .ok (s', ev)) :
    ev = (match fromA, toA with
          | some f, some t => transferEventAttrs info f t tokens
          | some f, none => burnEventAttrs info f tokens
          | none, some t => mintEventAttrs info t tokens
          | none, none => []) := by
  cases fromA with
  | none =>
    cases toA with
    | none =>
      simp only [update_balances] at hok
      cases hok
    | some t =>
      simp only [update_balances] at hok
      split at hok
      · cases hok
      · split at hok
        · cases hok
        · cases hok
          rfl
  | some f =>
    cases toA with
    | none =>
      simp only [update_balances, Option.isNone_none] at hok
      split at hok
      · cases hok
      · split at hok
        · cases hok
        · cases hok
          rfl
    | some t =>
      simp only [update_balances, Option.isNone_some] at hok
      split at hok
      · cases hok
      · split at hok
        · cases hok
        · split at hok
          · cases hok
          · split at hok
            · cases hok
            · cases hok
              rfl

/-- Single-item mint mode: supply and the recipient balance for that token
both grow by exactly the minted amount. -/
theorem update_balances_mint_single {env : Env} {info : MessageInfo}
    {s : ContractState} {rcpt : Addr} {id : TokenId} {a : Nat}
    {s' : ContractState} {ev : List Attr}
    (hok : update_balances env info s none (some rcpt) [⟨id, a⟩] = .ok (s', ev)) :
    supplyOf s'.supply id = supplyOf s.supply id + a ∧
    mgetD s'.balances (rcpt, id) 0 = mgetD s.balances (rcpt, id) 0 + a := by
  simp only [update_balances] at hok
  split at hok
  · cases hok
  · rename_i bals2 hadd
    split at hok
    · cases hok
    · rename_i sup hmint
      cases hok
      constructor
      · have h1 := mintSupplyLoop_ok [⟨id, a⟩] s.supply sup hmint id
        have hsa : sumAmounts [(⟨id, a⟩ : TokenAmount)] id = a := by
          simp [sumAmounts]
        rw [hsa] at h1
        exact h1
      · exact addToLoop_single hadd

/-- Single-item burn mode: supply and the owner balance for that token
both drop by exactly the burned amount. -/
theorem update_balances_burn_single {env : Env} {info : MessageInfo}
    {s : ContractState} {f : Addr} {id : TokenId} {a : Nat}
    {s' : ContractState} {ev : List Attr}
    (hok : update_balances env info s (some f) none [⟨id, a⟩] = .ok (s', ev)) :
    supplyOf s'.supply id + a = supplyOf s.supply id ∧
    mgetD s'.balances (f, id) 0 + a = mgetD s.balances (f, id) 0 := by
  simp only [update_balances, Option.isNone_none] at hok
  split at hok
  · cases hok
  · rename_i bals1 hsub
    split at hok
    · cases hok
    · rename_i taps sup hcons
      cases hok
      constructor
      · obtain ⟨hburn, _⟩ := consumeLoop_ok env info.sender f true [⟨id, a⟩]
          s.tokenApproves s.supply taps sup hcons
        have h1 := hburn rfl id
        have hsa : sumAmounts [(⟨id, a⟩ : TokenAmount)] id = a := by
          simp [sumAmounts]
        rw [hsa] at h1
        exact h1
      · exact subFromLoop_single hsub

/-- Transfer mode leaves the Supply Counter untouched. -/
theorem update_balances_transfer_supply {env : Env} {info : MessageInfo}
    {s : ContractState} {f t : Addr} {tokens : List TokenAmount}
    {s' : ContractState} {ev : List Attr}
    (hok : update_balances env info s (some f) (some t) tokens = .ok (s', ev)) :
    s'.supply = s.supply := by
  simp only [update_balances, Option.isNone_some] at hok
  split at hok
  · cases hok
  · split at hok
    · cases hok
    · split at hok
      · cases hok
      · rename_i taps sup hcons
        obtain ⟨_, hkeep⟩ := consumeLoop_ok env info.sender f false tokens
          s.tokenApproves s.supply taps sup hcons
        split at hok
        · cases hok
        · cases hok
          exact hkeep rfl

/-- A successful from-side loop implies no line item had a zero amount. -/
theorem subFromLoop_ok_no_zero {items : List TokenAmount} :
    ∀ {bals bals' : BalMap} {f : Addr},
      subFromLoop bals f items = .ok bals' → ∀ t ∈ items, t.amount ≠ 0 := by
  induction items with
  | nil =>
    intro bals bals' f hok t ht
    cases ht
  | cons u rest ih =>
    intro bals bals' f hok t ht
    simp only [subFromLoop] at hok
    split at hok
    · cases hok
    · rename_i hz0
      split at hok
      · cases hok
      · split at hok
        · cases hok
        · cases List.mem_cons.1 ht with
          | inl h => exact h ▸ hz0
          | inr h => exact ih hok t h

/-- A successful to-side loop implies no line item had a zero amount. -/
theorem addToLoop_ok_no_zero {items : List TokenAmount} :
    ∀ {bals bals' : BalMap} {toA : Addr},
      addToLoop bals toA items = .ok bals' → ∀ t ∈ items, t.amount ≠ 0 := by
  induction items with
  | nil =>
    intro bals bals' toA hok t ht
    cases ht
  | cons u rest ih =>
    intro bals bals' toA hok t ht
    simp only [addToLoop] at hok
    split at hok
    · cases hok
    · rename_i hz0
      split at hok
      · cases hok
      · cases List.mem_cons.1 ht with
        | inl h => exact h ▸ hz0
        | inr h => exact ih hok t h

/-- A successful Transfer Engine run implies no line item had a zero
amount. -/
theorem update_balances_ok_no_zero {env : Env} {info : MessageInfo}
    {s : ContractState} {fromA toA : Option Addr} {tokens : List TokenAmount}
    {s' : ContractState} {ev : List Attr}
    (hok : update_balances env info s fromA toA tokens = .ok (s', ev)) :
    ∀ t ∈ tokens, t.amount ≠ 0 := by
  cases fromA with
  | none =>
    cases toA with
    | none =>
      simp only [update_balances] at hok
      cases hok
    | some t =>
      simp only [update_balances] at hok
      split at hok
      · cases hok
      · rename_i bals2 hadd
        split at hok
        · cases hok
        · exact addToLoop_ok_no_zero hadd
  | some f =>
    cases toA with
    | none =>
      simp only [update_balances, Option.isNone_none] at hok
      split at hok
      · cases hok
      · rename_i bals1 hsub
        split at hok
        · cases hok
        · exact subFromLoop_ok_no_zero hsub
    | some t =>
      simp only [update_balances, Option.isNone_some] at hok
      split at hok
      · cases hok
      · rename_i bals1 hsub
        split at hok
        · cases hok
        · split at hok
          · cases hok
          · split at hok
            · cases hok
            · exact subFromLoop_ok_no_zero hsub

/-- Closed form of the from-side loop on one available line item. -/
theorem subFromLoop_single_eq {bals : BalMap} {f : Addr} {id : TokenId} {a b : Nat}
    (ha : a ≠ 0) (hlk : mlookup bals (f, id) = some b) (hab : a ≤ b) :
    subFromLoop bals f [⟨id, a⟩] = .ok (mset bals (f, id) (b - a)) := by
  simp [subFromLoop, ha, hlk, checkedSub, hab]

/-- Closed form of the to-side loop on one line item within the cap. -/
theorem addToLoop_single_eq {bals : BalMap} {toA : Addr} {id : TokenId} {a : Nat}
    (ha : a ≠ 0) (hcap : mgetD bals (toA, id) 0 + a ≤ UMAX) :
    addToLoop bals toA [⟨id, a⟩]
      = .ok (mset bals (toA, id) (mgetD bals (toA, id) 0 + a)) := by
  simp [addToLoop, ha, checkedAdd, hcap]

/-- Lookup in the token registry built by the `mint_batch` fold: existing
entries are untouched; a fresh id gets the first batch message naming it. -/
theorem mintBatchTokens_lookup (msgs : List Cw1155MintMsg) :
    ∀ (tm : TokMap) (id : TokenId),
      mlookup (mintBatchTokens tm msgs) id
        = (match mlookup tm id with
           | some v => some v
           | none =>
             (msgs.find? (fun m => m.token_id == id)).map
               (fun m => (⟨m.token_uri, m.extension⟩ : TokenInfo))) := by
  induction msgs with
  | nil =>
    intro tm id
    simp only [mintBatchTokens, List.find?_nil, Option.map_none]
    cases mlookup tm id <;> rfl
  | cons m rest ih =>
    intro tm id
    simp only [mintBatchTokens]
    by_cases hm : (mlookup tm m.token_id).isSome
    · rw [if_pos hm, ih tm id]
      by_cases hid : m.token_id = id
      · obtain ⟨v0, hv0⟩ := Option.isSome_iff_exists.1 hm
        rw [← hid, hv0]
      · have hbeq : (m.token_id == id) = false := by
          simpa using hid
        simp only [List.find?, hbeq]
    · rw [if_neg hm]
      have hnone : mlookup tm m.token_id = none := by
        cases hlm : mlookup tm m.token_id with
        | none => rfl
        | some v => rw [hlm] at hm; cases hm rfl
      rw [ih _ id]
      by_cases hid : m.token_id = id
      · subst hid
        rw [mlookup_mset_self, hnone]
        have hbeq : (m.token_id == m.token_id) = true := by simp
        simp only [List.find?, hbeq, Option.map_some]
        rfl
      · rw [mlookup_mset_ne tm m.token_id id _ (fun h => hid h.symm)]
        have hbeq : (m.token_id == id) = false := by simpa using hid
        simp only [List.find?, hbeq]

/-! ## Claim theorems -/

/-- C2: `verify_approval(caller, owner, token_id, amount)` resolves in the
spec's order: caller == owner or a non-expired blanket OperatorApproval
authorizes up to the owner's real balance, failing
`NotEnoughTokens{available: balance, requested}` when balance < amount;
otherwise a present, non-expired per-token approval authorizes up to
`min(approval.amount, owner_balance)`, failing
`NotEnoughTokens{available: ceiling, requested}` when that ceiling <
amount; otherwise it fails with a not-found error. -/
theorem verify_approval_matches_spec (env : Env) (info : MessageInfo)
    (s : ContractState) (owner : Addr) (id : TokenId) (amount : Nat) :
    verify_approval env info s owner id amount
      = verify_approval_spec env info s owner id amount := by
  by_cases h1 : owner = info.sender
  · simp [verify_approval, verify_approval_spec, h1]
  · have h1' : ¬ info.sender = owner := fun h => h1 h.symm
    cases hb : mlookup s.approves (owner, info.sender) with
    | some ex =>
      cases he : ex.isExpired env.block with
      | true =>
        cases hap : mlookup s.tokenApproves (id, owner, info.sender) with
        | none =>
          simp [verify_approval, verify_approval_spec, verify_all_approval,
                get_active_token_approval, h1, h1', hb, he, hap]
        | some ap =>
          cases hae : ap.isExpired env <;>
            simp [verify_approval, verify_approval_spec, verify_all_approval,
                  get_active_token_approval, h1, h1', hb, he, hap, hae]
      | false =>
        simp [verify_approval, verify_approval_spec, verify_all_approval,
              h1, h1', hb, he]
    | none =>
      cases hap : mlookup s.tokenApproves (id, owner, info.sender) with
      | none =>
        simp [verify_approval, verify_approval_spec, verify_all_approval,
              get_active_token_approval, h1, h1', hb, hap]
      | some ap =>
        cases hae : ap.isExpired env <;>
          simp [verify_approval, verify_approval_spec, verify_all_approval,
                get_active_token_approval, h1, h1', hb, hap, hae]

/-- C7: `approve_token(op, t, 30)` followed immediately by
`revoke_token(op, t, 30)` succeeds and leaves the Approval Store without
an entry for the triple `(t, caller, op)`, since the revoke amount
`min(30, existing.amount) = 30` equals the stored amount and triggers
deletion. -/
theorem approve_then_revoke_roundtrip (env : Env) (info : MessageInfo)
    (s : ContractState) (op : Addr) (t : TokenId) (exp? : Option Expiration)
    (hexp : (exp?.getD .never).isExpired env.block = false)
    (hop : info.sender ≠ op) :
    ∃ s1 ev1 s2 ev2,
      approve_token env info s op t 30 exp? = .ok (s1, ev1) ∧
      revoke_token info s1 op t (some 30) = .ok (s2, ev2) ∧
      mlookup s2.tokenApproves (t, info.sender, op) = none := by
  refine ⟨{ s with tokenApproves := (mset s.tokenApproves (t, info.sender, op) ⟨30, exp?.getD .never⟩) },
          approveEventAttrs info.sender op t 30,
          { s with tokenApproves := (merase (mset s.tokenApproves (t, info.sender, op) ⟨30, exp?.getD .never⟩) (t, info.sender, op)) },
          revokeEventAttrs info.sender op t 30, ?_, ?_, ?_⟩
  · simp [approve_token, hexp, hop]
  · simp [revoke_token, mlookup_mset_self]
  · exact mlookup_merase_self _ _

/-- Witness for C7 at concrete inputs: Alice approves Bob for 30 of "A"
and immediately revokes 30. -/
theorem approve_then_revoke_roundtrip_witness :
    ∃ s1 ev1 s2 ev2,
      approve_token envW infoAliceW sEmptyW "bob" "A" 30 none = .ok (s1, ev1) ∧
      revoke_token infoAliceW s1 "bob" "A" (some 30) = .ok (s2, ev2) ∧
      mlookup s2.tokenApproves ("A", "alice", "bob") = none :=
  approve_then_revoke_roundtrip envW infoAliceW sEmptyW "bob" "A" none rfl
    (by decide)

/-- C10: a send_batch whose line items repeat token "A" and together
exceed Alice's balance of 100 passes `verify_approvals` (each line item is
checked independently against the same pre-call balance) and then fails
with the arithmetic underflow/overflow error from the checked balance
subtraction, not with NotEnoughTokens. -/
theorem batch_overspend_underflows :
    verify_approvals envW infoAliceW sMintedW "alice" [⟨"A", 60⟩, ⟨"A", 60⟩]
      = .ok [⟨"A", 60⟩, ⟨"A", 60⟩] ∧
    execute envW infoAliceW sMintedW
        (.sendBatchMsg none "dave" [⟨"A", 60⟩, ⟨"A", 60⟩])
      = .error .overflow ∧
    ∀ av rq, ContractError.overflow ≠ ContractError.notEnoughTokens av rq := by
  refine ⟨rfl, rfl, ?_⟩
  intro av rq h
  cases h

/-- C5 counterexample: in the Scenario B state Bob's further send of 10 of
"A" from Alice fails with the storage not-found error, which is not
`NotEnoughTokens{available: 0, requested: 10}` as the claim states. -/
theorem scenarioC_error_counterexample :
    execute envW infoBobW sScenBW (.sendMsg (some "alice") "carol" "A" 10)
      = .error (.stdNotFound "approval") ∧
    (ContractError.stdNotFound "approval")
      ≠ (ContractError.notEnoughTokens 0 10) := by
  exact ⟨rfl, by decide⟩

/-- C5 amended: after Scenario B (approval fully consumed and deleted, no
blanket approval, Bob ≠ Alice), Bob's attempt to send 10 more of "A" from
Alice fails with the approval not-found error. -/
theorem scenarioC_fails_not_found :
    execute envW infoBobW sScenBW (.sendMsg (some "alice") "carol" "A" 10)
      = .error (.stdNotFound "approval") := by
  rfl

/-- C8 counterexample: a successful instantiate returns the attribute list
`[("minter", minter)]`; its first attribute's key is "minter", not
"action". -/
theorem instantiate_first_attr_counterexample :
    (instantiate infoMinterW instMsgW).2 = [("minter", "minter")] ∧
    (("minter", "minter") : Attr).1 ≠ "action" := by
  exact ⟨rfl, by decide⟩

/-- C1: after every successful call, every token_id's Supply Counter
equals the sum over all owners of `Balance(owner, token_id)`; a single
mint raises the recipient's balance and the supply by exactly the minted
amount, a single burn lowers the owner's balance and the supply by exactly
the burned amount, and a transfer leaves the Supply Counter unchanged. -/
theorem supply_conservation :
    (∀ env info s msg s' ev, Inv s → execute env info s msg = .ok (s', ev) →
       ∀ id, supplyOf s'.supply id = balSum s'.balances id) ∧
    (∀ env info s rcpt m s' ev,
       execute env info s (.mintMsg rcpt m) = .ok (s', ev) →
       supplyOf s'.supply m.token_id = supplyOf s.supply m.token_id + m.amount ∧
       mgetD s'.balances (rcpt, m.token_id) 0
         = mgetD s.balances (rcpt, m.token_id) 0 + m.amount) ∧
    (∀ env info s fa id a s' ev,
       execute env info s (.burnMsg fa id a) = .ok (s', ev) →
       supplyOf s'.supply id + a = supplyOf s.supply id ∧
       mgetD s'.balances (fa.getD info.sender, id) 0 + a
         = mgetD s.balances (fa.getD info.sender, id) 0) ∧
    (∀ env info s fa ta id a s' ev,
       execute env info s (.sendMsg fa ta id a) = .ok (s', ev) →
       s'.supply = s.supply) := by
  refine ⟨?_, ?_, ?_, ?_⟩
  · intro env info s msg s' ev hInv hok
    exact (execute_inv hInv hok).2
  · intro env info s rcpt m s' ev hok
    simp only [execute, mint] at hok
    split at hok
    · cases hok
    · split at hok
      · cases hok
      · rename_i s1 ev1 hub
        have hd := update_balances_mint_single hub
        split at hok
        · cases hok
          exact hd
        · cases hok
          exact hd
  · intro env info s fa id a s' ev hok
    simp only [execute, burn] at hok
    split at hok
    · cases hok
    · rename_i bu hver
      have hbu := verify_approval_ok_eq hver
      subst hbu
      exact update_balances_burn_single hok
  · intro env info s fa ta id a s' ev hok
    simp only [execute, send] at hok
    split at hok
    · cases hok
    · rename_i bu hver
      have hbu := verify_approval_ok_eq hver
      subst hbu
      exact update_balances_transfer_supply hok

/-- Witness for C1: minting 100 of "A" onto the fresh state preserves the
supply-equals-balance-sum invariant for "A". -/
theorem supply_conservation_witness :
    supplyOf sMintedW.supply "A" = balSum sMintedW.balances "A" :=
  supply_conservation.1 envW infoMinterW sEmptyW (.mintMsg "alice" mintMsgW)
    sMintedW mintAttrsW ⟨List.nodup_nil, fun _ => rfl⟩ rfl "A"

/-- C4: a failing call retains no mutation — under the host's
all-or-nothing commit the post-call state is the pre-call state — and a
send_batch containing a zero-amount line item always fails. -/
theorem failure_is_atomic :
    (∀ env info s msg e, execute env info s msg = .error e →
       step env info s msg = s) ∧
    (∀ env info s fa ta batch, (∃ t ∈ batch, t.amount = 0) →
       ∃ e, execute env info s (.sendBatchMsg fa ta batch) = .error e) := by
  constructor
  · intro env info s msg e h
    simp [step, h]
  · intro env info s fa ta batch hz
    cases hver : verify_approvals env info s (fa.getD info.sender) batch with
    | error e => exact ⟨e, by simp [execute, send_batch, hver]⟩
    | ok batch1 =>
      have hb := verify_approvals_ok_eq hver
      subst hb
      cases hub : update_balances env info s (some (fa.getD info.sender))
          (some ta) batch1 with
      | error e => exact ⟨e, by simp [execute, send_batch, hver, hub]⟩
      | ok p =>
        obtain ⟨p1, p2⟩ := p
        obtain ⟨t, ht, ht0⟩ := hz
        exact absurd ht0 (update_balances_ok_no_zero hub t ht)

/-- Witness for C4: a batch with a zero line item leaves the state
untouched. -/
theorem failure_is_atomic_witness :
    step envW infoAliceW sMintedW
      (.sendBatchMsg none "dave" [⟨"A", 10⟩, ⟨"A", 0⟩]) = sMintedW :=
  failure_is_atomic.1 envW infoAliceW sMintedW
    (.sendBatchMsg none "dave" [⟨"A", 10⟩, ⟨"A", 0⟩]) .invalidZeroAmount rfl

/-- C3: when the caller differs from the funds owner, each line item loads
the per-token approval (absent treated as the zero-amount default); an
expired stored approval fails with Expired; `approval.amount ≤ amount`
deletes the entry entirely; otherwise the amount is decremented by exactly
the transferred amount; and the Transfer Engine never touches blanket
operator approvals. -/
theorem approval_consumption_rule :
    (∀ env (sender f : Addr) (taps : TapMap) (t : TokenAmount), f ≠ sender →
       ((mgetD taps (t.token_id, f, sender) TokenApproval.zero).isExpired env = true →
          consumeItem env sender f taps t = .error .expired) ∧
       ((mgetD taps (t.token_id, f, sender) TokenApproval.zero).isExpired env = false →
          (mgetD taps (t.token_id, f, sender) TokenApproval.zero).amount ≤ t.amount →
          consumeItem env sender f taps t
            = .ok (merase taps (t.token_id, f, sender))) ∧
       ((mgetD taps (t.token_id, f, sender) TokenApproval.zero).isExpired env = false →
          t.amount < (mgetD taps (t.token_id, f, sender) TokenApproval.zero).amount →
          consumeItem env sender f taps t
            = .ok (mset taps (t.token_id, f, sender)
                ⟨(mgetD taps (t.token_id, f, sender) TokenApproval.zero).amount - t.amount,
                 (mgetD taps (t.token_id, f, sender) TokenApproval.zero).expiration⟩))) ∧
    (∀ env info s fromA toA tokens s' ev,
       update_balances env info s fromA toA tokens = .ok (s', ev) →
       s'.approves = s.approves) := by
  constructor
  · intro env sender f taps t hfs
    refine ⟨?_, ?_, ?_⟩
    · intro hexp
      simp [consumeItem, hfs, hexp]
    · intro hexp hle
      simp [consumeItem, hfs, hexp, hle]
    · intro hexp hlt
      have hnle : ¬ (mgetD taps (t.token_id, f, sender) TokenApproval.zero).amount
          ≤ t.amount := not_le.2 hlt
      simp [consumeItem, hfs, hexp, hnle]
  · intro env info s fromA toA tokens s' ev hok
    exact (update_balances_frame hok).2.1

/-- Witness for C3: Bob fully consumes his 30-token approval from Alice;
the entry is deleted. -/
theorem approval_consumption_rule_witness :
    consumeItem envW "bob" "alice" tapsW ⟨"A", 30⟩
      = .ok (merase tapsW ("A", "alice", "bob")) :=
  (approval_consumption_rule.1 envW "bob" "alice" tapsW ⟨"A", 30⟩
    (by decide)).2.1 rfl (by decide)

/-- C6: the first mint of a token_id creates its TokenInfo from the mint
message's token_uri and extension; every subsequent mint of the same id
(single or batch) leaves the stored TokenInfo completely unchanged,
ignoring the new message's metadata. -/
theorem token_info_created_once :
    (∀ env info s rcpt m s' ev,
       execute env info s (.mintMsg rcpt m) = .ok (s', ev) →
       (∀ v, mlookup s.tokens m.token_id = some v →
          mlookup s'.tokens m.token_id = some v) ∧
       (mlookup s.tokens m.token_id = none →
          mlookup s'.tokens m.token_id = some ⟨m.token_uri, m.extension⟩)) ∧
    (∀ env info s rcpt msgs s' ev,
       execute env info s (.mintBatchMsg rcpt msgs) = .ok (s', ev) →
       ∀ id,
         (∀ v, mlookup s.tokens id = some v → mlookup s'.tokens id = some v) ∧
         (mlookup s.tokens id = none →
            mlookup s'.tokens id
              = (msgs.find? (fun m => m.token_id == id)).map
                  (fun m => (⟨m.token_uri, m.extension⟩ : TokenInfo)))) := by
  constructor
  · intro env info s rcpt m s' ev hok
    simp only [execute, mint] at hok
    split at hok
    · cases hok
    · split at hok
      · cases hok
      · rename_i s1 ev1 hub
        have hfr := (update_balances_frame hub).1
        split at hok
        · rename_i hsome
          cases hok
          constructor
          · intro v hv
            rw [hfr, hv]
          · intro hnone
            rw [hfr, hnone] at hsome
            cases hsome
        · rename_i hnone1
          cases hok
          constructor
          · intro v hv
            rw [hfr, hv] at hnone1
            exact absurd rfl hnone1
          · intro hnone
            show mlookup (mset s1.tokens m.token_id ⟨m.token_uri, m.extension⟩)
              m.token_id = _
            rw [mlookup_mset_self]
  · intro env info s rcpt msgs s' ev hok
    simp only [execute, mint_batch] at hok
    split at hok
    · cases hok
    · have hfr := (update_balances_frame hok).1
      intro id
      have hlk := mintBatchTokens_lookup msgs s.tokens id
      constructor
      · intro v hv
        rw [hfr]
        show mlookup (mintBatchTokens s.tokens msgs) id = some v
        rw [hlk, hv]
      · intro hnone
        rw [hfr]
        show mlookup (mintBatchTokens s.tokens msgs) id = _
        rw [hlk, hnone]

/-- Witness for C6: a second mint of "A" with different metadata leaves
the original TokenInfo (uri "uri", extension 7) in place. -/
theorem token_info_created_once_witness :
    mlookup sSecondMintW.tokens "A" = some ⟨some "uri", 7⟩ :=
  (token_info_created_once.1 envW infoMinterW sMintedW "bob" mintMsg2W
    sSecondMintW mintAttrs2W rfl).1 ⟨some "uri", 7⟩ rfl

/-- C8 amended: every successful call through the dispatcher returns an
attribute list whose first attribute is the action name determined by the
message kind — "<verb>_<single|batch>" chosen by token count for
mint/burn/transfer, and the fixed names approve_single, revoke_single,
approve_all, revoke_all for approval operations — while instantiate's
response begins with a minter attribute instead of an action. -/
theorem first_attribute_is_expected {env : Env} {info : MessageInfo}
    {s : ContractState} {msg : Msg} {s' : ContractState} {ev : List Attr}
    (hok : execute env info s msg = .ok (s', ev)) :
    ev.head? = some (expectedFirstAttr msg) := by
  cases msg with
  | mintMsg rcpt m =>
    simp only [execute, mint] at hok
    split at hok
    · cases hok
    · split at hok
      · cases hok
      · rename_i s1 ev1 hub
        have hev := update_balances_attrs hub
        split at hok
        · cases hok
          rw [hev]
          show (some (("action", "mint" ++ "_" ++ "single")) : Option Attr)
            = some ("action", "mint_single")
          decide
        · cases hok
          rw [hev]
          show (some (("action", "mint" ++ "_" ++ "single")) : Option Attr)
            = some ("action", "mint_single")
          decide
  | mintBatchMsg rcpt msgs =>
    simp only [execute, mint_batch] at hok
    split at hok
    · cases hok
    · have hev := update_balances_attrs hok
      rw [hev]
      show some (event_action "mint" (msgs.map fun m => ⟨m.token_id, m.amount⟩))
        = some (expectedFirstAttr (.mintBatchMsg rcpt msgs))
      simp only [event_action, expectedFirstAttr, List.length_map]
      by_cases hl : msgs.length = 1
      · simp only [if_pos hl]
        decide
      · simp only [if_neg hl]
        decide
  | sendMsg fa ta id a =>
    simp only [execute, send] at hok
    split at hok
    · cases hok
    · rename_i bu hver
      have hbu := verify_approval_ok_eq hver
      subst hbu
      have hev := update_balances_attrs hok
      rw [hev]
      show (some (("action", "transfer" ++ "_" ++ "single")) : Option Attr)
        = some ("action", "transfer_single")
      decide
  | sendBatchMsg fa ta batch =>
    simp only [execute, send_batch] at hok
    split at hok
    · cases hok
    · rename_i batch1 hver
      have hb := verify_approvals_ok_eq hver
      subst hb
      have hev := update_balances_attrs hok
      rw [hev]
      show some (event_action "transfer" batch1)
        = some (expectedFirstAttr (.sendBatchMsg fa ta batch1))
      simp only [event_action, expectedFirstAttr]
      by_cases hl : batch1.length = 1
      · simp only [if_pos hl]
        decide
      · simp only [if_neg hl]
        decide
  | burnMsg fa id a =>
    simp only [execute, burn] at hok
    split at hok
    · cases hok
    · rename_i bu hver
      have hbu := verify_approval_ok_eq hver
      subst hbu
      have hev := update_balances_attrs hok
      rw [hev]
      show (some (("action", "burn" ++ "_" ++ "single")) : Option Attr)
        = some ("action", "burn_single")
      decide
  | burnBatchMsg fa batch =>
    simp only [execute, burn_batch] at hok
    split at hok
    · cases hok
    · rename_i batch1 hver
      have hb := verify_approvals_ok_eq hver
      subst hb
      have hev := update_balances_attrs hok
      rw [hev]
      show some (event_action "burn" batch1)
        = some (expectedFirstAttr (.burnBatchMsg fa batch1))
      simp only [event_action, expectedFirstAttr]
      by_cases hl : batch1.length = 1
      · simp only [if_pos hl]
        decide
      · simp only [if_neg hl]
        decide
  | approveMsg op id a exp? =>
    simp only [execute, approve_token] at hok
    split at hok
    · cases hok
    · split at hok
      · cases hok
      · split at hok
        · cases hok
        · cases hok
          rfl
  | approveAllMsg op exp? =>
    simp only [execute, approve_all] at hok
    split at hok
    · cases hok
    · split at hok
      · cases hok
      · cases hok
        rfl
  | revokeMsg op id amount? =>
    simp only [execute, revoke_token] at hok
    split at hok
    · cases hok
    · split at hok
      · cases hok
        rfl
      · cases hok
        rfl
  | revokeAllMsg op =>
    simp only [execute, revoke_all] at hok
    cases hok
    rfl

/-- Witness for C8 (amended): the Scenario A mint's first attribute is
action = mint_single. -/
theorem first_attribute_is_expected_witness :
    mintAttrsW.head? = some ("action", "mint_single") :=
  first_attribute_is_expected
    (rfl : execute envW infoMinterW sEmptyW (.mintMsg "alice" mintMsgW)
      = .ok (sMintedW, mintAttrsW))

/-- C9: for every send or burn in which the caller differs from the funds
owner and authorization succeeded through a non-expired blanket operator
approval, the Transfer Engine still processes the per-token approval for
(token_id, owner, caller): an expired stored entry fails the whole call
with Expired despite the valid blanket authorization, and an unexpired
entry is consumed (deleted when its amount ≤ the moved amount, otherwise
decremented by exactly that amount) — the consumption step depends only on
caller ≠ owner, not on which authorization path succeeded. -/
theorem blanket_approval_does_not_bypass_consumption
    (env : Env) (info : MessageInfo) (s : ContractState) (f t : Addr)
    (id : TokenId) (a b : Nat) (ap : TokenApproval)
    (hsne : f ≠ info.sender)
    (hblanket : verify_all_approval env s.approves f info.sender = true)
    (hap : mlookup s.tokenApproves (id, f, info.sender) = some ap)
    (hbal : mlookup s.balances (f, id) = some b)
    (ha : a ≠ 0) (hab : a ≤ b)
    (hft : f ≠ t)
    (hcap : mgetD s.balances (t, id) 0 + a ≤ UMAX)
    (hsup : a ≤ mgetD s.supply id 0) :
    (ap.isExpired env = true →
       send env info s (some f) t id a = .error .expired ∧
       burn env info s (some f) id a = .error .expired) ∧
    (ap.isExpired env = false →
       (∃ s' ev,
         send env info s (some f) t id a = .ok (s', ev) ∧
         mlookup s'.tokenApproves (id, f, info.sender)
           = (if ap.amount ≤ a then none
              else some ⟨ap.amount - a, ap.expiration⟩)) ∧
       (∃ s' ev,
         burn env info s (some f) id a = .ok (s', ev) ∧
         mlookup s'.tokenApproves (id, f, info.sender)
           = (if ap.amount ≤ a then none
              else some ⟨ap.amount - a, ap.expiration⟩))) := by
  have hbd : mgetD s.balances (f, id) 0 = b := by simp [mgetD, hbal]
  have hver : verify_approval env info s f id a = .ok ⟨id, a⟩ := by
    simp only [verify_approval]
    rw [if_pos (Or.inr hblanket), hbd, if_neg (not_lt.2 hab)]
  have hsend : send env info s (some f) t id a
      = update_balances env info s (some f) (some t) [⟨id, a⟩] := by
    simp only [send, Option.getD_some, hver]
  have hburnEq : burn env info s (some f) id a
      = update_balances env info s (some f) none [⟨id, a⟩] := by
    simp only [burn, Option.getD_some, hver]
  have hsub := subFromLoop_single_eq ha hbal hab
  have hk : (t, id) ≠ ((f, id) : Addr × TokenId) :=
    fun h => hft ((congrArg Prod.fst h).symm)
  have hm1 : mgetD (mset s.balances (f, id) (b - a)) (t, id) 0
      = mgetD s.balances (t, id) 0 := by
    simp [mgetD, mlookup_mset_ne _ _ _ _ hk]
  have hadd : addToLoop (mset s.balances (f, id) (b - a)) t [⟨id, a⟩]
      = .ok (mset (mset s.balances (f, id) (b - a)) (t, id)
          (mgetD (mset s.balances (f, id) (b - a)) (t, id) 0 + a)) :=
    addToLoop_single_eq ha (by rw [hm1]; exact hcap)
  have hdec : decrement_tokens s.supply id a
      = .ok (mset s.supply id (mgetD s.supply id 0 - a)) := by
    simp [decrement_tokens, checkedSub, hsup]
  have hgd : mgetD s.tokenApproves (id, f, info.sender) TokenApproval.zero = ap := by
    simp [mgetD, hap]
  constructor
  · intro hexp
    have hci : consumeItem env info.sender f s.tokenApproves ⟨id, a⟩
        = .error .expired := by
      simp [consumeItem, hsne, hgd, hexp]
    constructor
    · rw [hsend]
      simp only [update_balances, Option.isNone_some, hsub, hadd]
      simp [consumeLoop, ha, hci]
    · rw [hburnEq]
      simp only [update_balances, Option.isNone_none, hsub]
      simp [consumeLoop, ha, hci]
  · intro hexp
    by_cases hle : ap.amount ≤ a
    · have hci : consumeItem env info.sender f s.tokenApproves ⟨id, a⟩
          = .ok (merase s.tokenApproves (id, f, info.sender)) := by
        simp [consumeItem, hsne, hgd, hexp, hle]
      constructor
      · refine ⟨{ s with
            balances := (mset (mset s.balances (f, id) (b - a)) (t, id)
              (mgetD (mset s.balances (f, id) (b - a)) (t, id) 0 + a)),
            tokenApproves := (merase s.tokenApproves (id, f, info.sender)),
            supply := s.supply },
          transferEventAttrs info f t [⟨id, a⟩], ?_, ?_⟩
        · rw [hsend]
          simp only [update_balances, Option.isNone_some, hsub, hadd]
          simp [consumeLoop, ha, hci, hft]
        · show mlookup (merase s.tokenApproves (id, f, info.sender))
              (id, f, info.sender) = _
          rw [mlookup_merase_self, if_pos hle]
      · refine ⟨{ s with
            balances := (mset s.balances (f, id) (b - a)),
            tokenApproves := (merase s.tokenApproves (id, f, info.sender)),
            supply := (mset s.supply id (mgetD s.supply id 0 - a)) },
          burnEventAttrs info f [⟨id, a⟩], ?_, ?_⟩
        · rw [hburnEq]
          simp only [update_balances, Option.isNone_none, hsub]
          simp [consumeLoop, ha, hci, hdec]
        · show mlookup (merase s.tokenApproves (id, f, info.sender))
              (id, f, info.sender) = _
          rw [mlookup_merase_self, if_pos hle]
    · have hci : consumeItem env info.sender f s.tokenApproves ⟨id, a⟩
          = .ok (mset s.tokenApproves (id, f, info.sender)
              ⟨ap.amount - a, ap.expiration⟩) := by
        simp [consumeItem, hsne, hgd, hexp, hle]
      constructor
      · refine ⟨{ s with
            balances := (mset (mset s.balances (f, id) (b - a)) (t, id)
              (mgetD (mset s.balances (f, id) (b - a)) (t, id) 0 + a)),
            tokenApproves := (mset s.tokenApproves (id, f, info.sender)
              ⟨ap.amount - a, ap.expiration⟩),
            supply := s.supply },
          transferEventAttrs info f t [⟨id, a⟩], ?_, ?_⟩
        · rw [hsend]
          simp only [update_balances, Option.isNone_some, hsub, hadd]
          simp [consumeLoop, ha, hci, hft]
        · show mlookup (mset s.tokenApproves (id, f, info.sender)
              ⟨ap.amount - a, ap.expiration⟩) (id, f, info.sender) = _
          rw [mlookup_mset_self, if_neg hle]
      · refine ⟨{ s with
            balances := (mset s.balances (f, id) (b - a)),
            tokenApproves := (mset s.tokenApproves (id, f, info.sender)
              ⟨ap.amount - a, ap.expiration⟩),
            supply := (mset s.supply id (mgetD s.supply id 0 - a)) },
          burnEventAttrs info f [⟨id, a⟩], ?_, ?_⟩
        · rw [hburnEq]
          simp only [update_balances, Option.isNone_none, hsub]
          simp [consumeLoop, ha, hci, hdec]
        · show mlookup (mset s.tokenApproves (id, f, info.sender)
              ⟨ap.amount - a, ap.expiration⟩) (id, f, info.sender) = _
          rw [mlookup_mset_self, if_neg hle]

/-- Witness for C9: Bob, holding a blanket approval from Alice and a live
per-token approval of 30, sends 30 of "A" (entry consumed and deleted) and,
from the same starting state, burns 30 of "A" (entry likewise consumed). -/
theorem blanket_approval_does_not_bypass_consumption_witness :
    (TokenApproval.mk 30 .never).isExpired envW = false ∧
    (∃ s' ev,
      send envW infoBobW sBlanketLiveW (some "alice") "carol" "A" 30 = .ok (s', ev) ∧
      mlookup s'.tokenApproves ("A", "alice", "bob")
        = (if (30 : Nat) ≤ 30 then none
           else some ⟨30 - 30, Expiration.never⟩)) ∧
    (∃ s' ev,
      burn envW infoBobW sBlanketLiveW (some "alice") "A" 30 = .ok (s', ev) ∧
      mlookup s'.tokenApproves ("A", "alice", "bob")
        = (if (30 : Nat) ≤ 30 then none
           else some ⟨30 - 30, Expiration.never⟩)) :=
  ⟨rfl,
   ((blanket_approval_does_not_bypass_consumption envW infoBobW sBlanketLiveW
      "alice" "carol" "A" 30 100 ⟨30, .never⟩ (by decide) rfl rfl rfl
      (by decide) (by decide) (by decide) (by decide) (by decide)).2 rfl).1,
   ((blanket_approval_does_not_bypass_consumption envW infoBobW sBlanketLiveW
      "alice" "carol" "A" 30 100 ⟨30, .never⟩ (by decide) rfl rfl rfl
      (by decide) (by decide) (by decide) (by decide) (by decide)).2 rfl).2⟩

/-- Witness for C10: the concrete double-spend batch indeed passes
authorization item-by-item. -/
theorem batch_overspend_underflows_witness :
    verify_approvals envW infoAliceW sMintedW "alice" [⟨"A", 60⟩, ⟨"A", 60⟩]
      = .ok [⟨"A", 60⟩, ⟨"A", 60⟩] :=
  batch_overspend_underflows.1

end CW1155
